import Mathlib

/-!
Verification of `scripts/split-enriched-python.py`: a script that reads one
JSON document whose top-level `artists` key maps to a mapping of artist
records, partitions that mapping into consecutive groups of at most
`CHUNK_SIZE` entries (in insertion order), and writes each group, merged with
the document's other top-level fields and three counters, to a numbered file
`chunk-<NN>.json` in the output directory.

The embedding models JSON values as the inductive `JVal`, Python dicts as
insertion-ordered association lists (`Obj`), Python dict construction
(dict literals, `dict(pairs)`, dict comprehensions) as `pyDict` — successive
insertion where an existing key keeps its position and takes the new value —
and the loop `for i in range(0, len(artist_items), CHUNK_SIZE)` with its
separate `chunk_index` counter via `pyRange` and `List.enum`.
-/

/-- JSON values as parsed by `json.load` / written by `json.dump`.  Objects
preserve key insertion order (Python dicts are ordered), which the script
relies on. -/
inductive JVal : Type where
  | null : JVal
  | bool : Bool → JVal
  | num : Int → JVal
  | str : String → JVal
  | arr : List JVal → JVal
  | obj : List (String × JVal) → JVal

/-- A Python dict as an insertion-ordered association list. -/
abbrev Obj := List (String × JVal)

/-- Python dict lookup `d[k]` (as an `Option`): first entry with the given
key.  Dicts built by `pyDict` have unique keys, so first-match is exact. -/
def lookupKV {β : Type} (k : String) : List (String × β) → Option β
  | [] => none
  | p :: t => if p.1 == k then some p.2 else lookupKV k t

/-- One step of Python dict insertion `d[k] = v`: if the key is present the
entry keeps its position and takes the new value, otherwise the pair is
appended. -/
def insertOrUpdate {β : Type} (acc : List (String × β)) (kv : String × β) :
    List (String × β) :=
  if acc.any fun p => p.1 == kv.1 then
    acc.map fun p => if p.1 == kv.1 then (p.1, kv.2) else p
  else
    acc ++ [kv]

/-- Building a Python dict from a sequence of key/value pairs (`dict(pairs)`,
dict literals, dict comprehensions): successive insertion. -/
def pyDict {β : Type} (l : List (String × β)) : List (String × β) :=
  l.foldl insertOrUpdate []

/-- `CHUNK_SIZE = 60000`, artists per chunk. -/
def CHUNK_SIZE : Nat := 60000

/-- Number of loop iterations / chunks: `range(0, n, CHUNK_SIZE)` has
`ceil(n / CHUNK_SIZE)` elements.  Matches the script's own
`(total_artists + CHUNK_SIZE - 1) // CHUNK_SIZE`. -/
def numChunks (n : Nat) : Nat := (n + CHUNK_SIZE - 1) / CHUNK_SIZE

/-- Python `range(0, stop, step)` for positive `step`: the ascending
multiples of `step` below `stop`, i.e. `j * step` for
`j < ceil(stop / step)`. -/
def pyRange (stop step : Nat) : List Nat :=
  (List.range ((stop + step - 1) / step)).map fun j => j * step

/-- `metadata = {k: v for k, v in data.items() if k != 'artists'}`. -/
def metadataOf (data : Obj) : Obj :=
  pyDict (data.filter fun kv => !(kv.1 == "artists"))

/-- `chunk_artists = dict(artist_items[i:i + CHUNK_SIZE])`. -/
def chunkArtists (items : Obj) (i : Nat) : Obj :=
  pyDict ((items.drop i).take CHUNK_SIZE)

/-- Python's `f'{n:02d}'` for a natural number: the decimal rendering,
left-padded with `'0'` to a minimum width of 2 (no truncation). -/
def format02d (n : Nat) : String :=
  let s := Nat.repr n
  if s.length < 2 then String.mk (List.replicate (2 - s.length) '0') ++ s else s

/-- `f'chunk-{chunk_index:02d}.json'`. -/
def chunkFileName (idx : Nat) : String :=
  "chunk-" ++ format02d idx ++ ".json"

/-- `chunk_data = {**metadata, 'chunk_index': ..., 'chunk_artist_count': ...,
'total_artist_count': ..., 'artists': ...}`: the metadata entries inserted
first, then the four explicit keys, with Python dict-literal semantics. -/
def chunkData (md : Obj) (idx total : Nat) (ca : Obj) : Obj :=
  pyDict (md ++
    [("chunk_index", JVal.num idx),
     ("chunk_artist_count", JVal.num ca.length),
     ("total_artist_count", JVal.num total),
     ("artists", JVal.obj ca)])

/-- The loop of `main`: iterate `i` over `range(0, len(artist_items),
CHUNK_SIZE)` with the incrementing `chunk_index` counter (modelled by
`List.enum`), producing for each iteration the output file name and the
`chunk_data` object written to it.  `A` is `artist_items`
(`list(data['artists'].items())`). -/
def splitChunks (data : Obj) (A : Obj) : List (String × Obj) :=
  (pyRange A.length CHUNK_SIZE).enum.map fun p =>
    (chunkFileName p.1, chunkData (metadataOf data) p.1 A.length (chunkArtists A p.2))

/-- Observable outcome of one run of `main`: the process exit code, whether
`os.makedirs(OUTPUT_DIR, ...)` was executed, and the chunk files written
(name and JSON object content; `json.dump` serializes each object
deterministically). -/
structure RunOutcome : Type where
  exitCode : Nat
  dirCreated : Bool
  files : List (String × Obj)

/-- `main`: `input` is the parsed content of `INPUT_FILE` when it exists
(`none` when the existence check fails).  A missing file exits with status 1
before `os.makedirs`; a document without an `artists` mapping raises an
uncaught exception (exit status 1) after the directory was created but
before any chunk is written. -/
def split (input : Option Obj) : RunOutcome :=
  match input with
  | none => ⟨1, false, []⟩
  | some data =>
    match lookupKV "artists" data with
    | some (JVal.obj A) => ⟨0, true, splitChunks data A⟩
    | _ => ⟨1, true, []⟩

/-- The output directory as a map from file name to file content. -/
def FS : Type := String → Option Obj

/-- `open(output_file, 'w')` + `json.dump`: overwrite the file. -/
def writeFile (fs : FS) (name : String) (content : Obj) : FS :=
  fun q => if q = name then some content else fs q

/-- One run of the script against an output directory state: every produced
chunk file is written (overwriting) in loop order. -/
def runSplit (fs : FS) (input : Option Obj) : FS :=
  (split input).files.foldl (fun g fc => writeFile g fc.1 fc.2) fs

/-- Extract the entry list of a JSON object value (used to observe a chunk's
`artists` field). -/
def getObj : Option JVal → Obj
  | some (JVal.obj l) => l
  | _ => []

/-! ### Helper lemmas about Python dict construction -/

lemma any_key_eq_false {β : Type} {k : String} {acc : List (String × β)}
    (h : k ∉ acc.map Prod.fst) : (acc.any fun p => p.1 == k) = false := by
  simp only [List.any_eq_false]
  intro p hp
  simp only [beq_iff_eq]
  intro hk
  exact h (List.mem_map.mpr ⟨p, hp, hk⟩)

lemma insertOrUpdate_not_mem {β : Type} {k : String} {acc : List (String × β)}
    (h : k ∉ acc.map Prod.fst) (v : β) :
    insertOrUpdate acc (k, v) = acc ++ [(k, v)] := by
  simp [insertOrUpdate, any_key_eq_false h]

lemma foldl_insertOrUpdate_nodup {β : Type} :
    ∀ (l acc : List (String × β)), (((acc ++ l).map Prod.fst).Nodup) →
      l.foldl insertOrUpdate acc = acc ++ l := by
  intro l
  induction l with
  | nil => intro acc _; simp
  | cons kv t ih =>
    intro acc h
    have hmap : ((acc ++ kv :: t).map Prod.fst) =
        (acc.map Prod.fst) ++ kv.1 :: (t.map Prod.fst) := by simp
    rw [hmap] at h
    have hk : kv.1 ∉ acc.map Prod.fst := by
      intro hmem
      have := List.disjoint_of_nodup_append h
      exact this hmem (List.mem_cons_self _ _)
    have hstep : insertOrUpdate acc kv = acc ++ [kv] := by
      obtain ⟨k, v⟩ := kv
      exact insertOrUpdate_not_mem hk v
    rw [List.foldl_cons, hstep]
    have h' : (((acc ++ [kv]) ++ t).map Prod.fst).Nodup := by
      have : (acc ++ [kv]) ++ t = acc ++ (kv :: t) := by simp
      rw [this, hmap]
      exact h
    rw [ih (acc ++ [kv]) h']
    simp

lemma pyDict_eq_self {β : Type} {l : List (String × β)}
    (h : (l.map Prod.fst).Nodup) : pyDict l = l := by
  have := foldl_insertOrUpdate_nodup l [] (by simpa using h)
  simpa [pyDict] using this

lemma lookupKV_map_update {β : Type} {k : String} (v : β) :
    ∀ (acc : List (String × β)), (acc.any fun p => p.1 == k) = true →
      lookupKV k (acc.map fun p => if p.1 == k then (p.1, v) else p) = some v := by
  intro acc
  induction acc with
  | nil => simp
  | cons p t ih =>
    intro h
    cases hp : (p.1 == k) with
    | true => simp [lookupKV, hp]
    | false =>
      simp only [List.any_cons, hp, Bool.false_or] at h
      simp only [List.map_cons, hp, Bool.false_eq_true, if_false, lookupKV, hp]
      exact ih h

lemma lookupKV_map_update_ne {β : Type} {k k' : String} (hne : k ≠ k') (v : β) :
    ∀ (acc : List (String × β)),
      lookupKV k (acc.map fun p => if p.1 == k' then (p.1, v) else p) = lookupKV k acc := by
  intro acc
  induction acc with
  | nil => simp [lookupKV]
  | cons p t ih =>
    cases hp : (p.1 == k') with
    | true =>
      have hp' : p.1 = k' := by simpa using hp
      have hpk : (p.1 == k) = false := by
        rw [beq_eq_false_iff_ne, hp']
        exact Ne.symm hne
      simp only [List.map_cons, hp, if_true, lookupKV, hpk, Bool.false_eq_true, if_false]
      exact ih
    | false =>
      simp only [List.map_cons, hp, Bool.false_eq_true, if_false, lookupKV]
      cases hpk : (p.1 == k) with
      | true => simp
      | false => simpa using ih

lemma lookupKV_append_ne {β : Type} {k k' : String} (hne : k ≠ k') (v : β) :
    ∀ (acc : List (String × β)),
      lookupKV k (acc ++ [(k', v)]) = lookupKV k acc := by
  intro acc
  have hk : (k' == k) = false := by
    rw [beq_eq_false_iff_ne]
    exact Ne.symm hne
  induction acc with
  | nil => simp [lookupKV, hk]
  | cons p t ih =>
    simp only [List.cons_append, lookupKV]
    cases hpk : (p.1 == k) with
    | true => simp
    | false => simpa using ih

lemma lookupKV_append_not_mem {β : Type} {k : String} (v : β) :
    ∀ (acc : List (String × β)), (acc.any fun p => p.1 == k) = false →
      lookupKV k (acc ++ [(k, v)]) = some v := by
  intro acc
  induction acc with
  | nil => simp [lookupKV]
  | cons p t ih =>
    intro h
    simp only [List.any_cons, Bool.or_eq_false_iff] at h
    simp only [List.cons_append, lookupKV, h.1, Bool.false_eq_true, if_false]
    exact ih h.2

lemma lookupKV_insertOrUpdate_self {β : Type} {k : String} (v : β)
    (acc : List (String × β)) :
    lookupKV k (insertOrUpdate acc (k, v)) = some v := by
  unfold insertOrUpdate
  cases h : (acc.any fun p => p.1 == k) with
  | true => simpa using lookupKV_map_update v acc h
  | false => simpa using lookupKV_append_not_mem v acc h

lemma lookupKV_insertOrUpdate_ne {β : Type} {k k' : String} (hne : k ≠ k')
    (v : β) (acc : List (String × β)) :
    lookupKV k (insertOrUpdate acc (k', v)) = lookupKV k acc := by
  unfold insertOrUpdate
  cases h : (acc.any fun p => p.1 == k') with
  | true => simpa using lookupKV_map_update_ne hne v acc
  | false => simpa using lookupKV_append_ne hne v acc

/-! ### Field lookups on a produced chunk object -/

lemma pyDict_append_four (md : Obj) (idx total : Nat) (ca : Obj) :
    chunkData md idx total ca =
      insertOrUpdate (insertOrUpdate (insertOrUpdate (insertOrUpdate
        (pyDict md) ("chunk_index", JVal.num idx))
        ("chunk_artist_count", JVal.num ca.length))
        ("total_artist_count", JVal.num total))
        ("artists", JVal.obj ca) := by
  simp [chunkData, pyDict, List.foldl_append]

lemma lookupKV_chunkData_chunk_index (md : Obj) (idx total : Nat) (ca : Obj) :
    lookupKV "chunk_index" (chunkData md idx total ca) = some (JVal.num idx) := by
  rw [pyDict_append_four]
  rw [lookupKV_insertOrUpdate_ne (by decide) _ _]
  rw [lookupKV_insertOrUpdate_ne (by decide) _ _]
  rw [lookupKV_insertOrUpdate_ne (by decide) _ _]
  exact lookupKV_insertOrUpdate_self _ _

lemma lookupKV_chunkData_chunk_artist_count (md : Obj) (idx total : Nat) (ca : Obj) :
    lookupKV "chunk_artist_count" (chunkData md idx total ca) =
      some (JVal.num ca.length) := by
  rw [pyDict_append_four]
  rw [lookupKV_insertOrUpdate_ne (by decide) _ _]
  rw [lookupKV_insertOrUpdate_ne (by decide) _ _]
  exact lookupKV_insertOrUpdate_self _ _

lemma lookupKV_chunkData_total (md : Obj) (idx total : Nat) (ca : Obj) :
    lookupKV "total_artist_count" (chunkData md idx total ca) =
      some (JVal.num total) := by
  rw [pyDict_append_four]
  rw [lookupKV_insertOrUpdate_ne (by decide) _ _]
  exact lookupKV_insertOrUpdate_self _ _

lemma lookupKV_chunkData_artists (md : Obj) (idx total : Nat) (ca : Obj) :
    lookupKV "artists" (chunkData md idx total ca) = some (JVal.obj ca) :=
  pyDict_append_four md idx total ca ▸ lookupKV_insertOrUpdate_self _ _

/-! ### Normal form of the chunking loop -/

lemma enum_range_self (k : Nat) :
    (List.range k).enum = (List.range k).map fun i => (i, i) := by
  apply List.ext_get
  · simp [List.enum_length]
  · intro i h1 h2
    simp [List.getElem_enum]

lemma enum_map_gen {α β : Type} (k : Nat) (f : Nat → α) (F : Nat × α → β) :
    (((List.range k).map f).enum.map F) = (List.range k).map fun j => F (j, f j) := by
  rw [List.enum_map, List.map_map, enum_range_self, List.map_map]
  rfl

lemma splitChunks_eq (data A : Obj) :
    splitChunks data A = (List.range (numChunks A.length)).map fun j =>
      (chunkFileName j,
       chunkData (metadataOf data) j A.length (chunkArtists A (j * CHUNK_SIZE))) := by
  unfold splitChunks pyRange
  rw [enum_map_gen]
  rfl
lemma join_slices {α : Type} (l : List α) :
    ((pyRange l.length CHUNK_SIZE).map fun i => (l.drop i).take CHUNK_SIZE).flatten = l := by
  by_cases h0 : l.length = 0
  · have hl : l = [] := List.length_eq_zero.mp h0
    subst hl
    simp [pyRange, CHUNK_SIZE]
  · have hpos : 0 < l.length := Nat.pos_of_ne_zero h0
    have ih := join_slices (l.drop CHUNK_SIZE)
    have hk : (l.length + CHUNK_SIZE - 1) / CHUNK_SIZE =
        ((l.drop CHUNK_SIZE).length + CHUNK_SIZE - 1) / CHUNK_SIZE + 1 := by
      rw [List.length_drop]
      simp only [CHUNK_SIZE]
      omega
    unfold pyRange at ih ⊢
    rw [List.map_map] at ih
    rw [hk, List.range_succ_eq_map]
    simp only [List.map_cons, List.map_map, List.flatten_cons, Nat.zero_mul, List.drop_zero]
    have htail : (List.range (((l.drop CHUNK_SIZE).length + CHUNK_SIZE - 1) / CHUNK_SIZE)).map
          ((fun i => (l.drop i).take CHUNK_SIZE) ∘ (fun j => j * CHUNK_SIZE) ∘ Nat.succ) =
        (List.range (((l.drop CHUNK_SIZE).length + CHUNK_SIZE - 1) / CHUNK_SIZE)).map
          ((fun i => ((l.drop CHUNK_SIZE).drop i).take CHUNK_SIZE) ∘ (fun j => j * CHUNK_SIZE)) := by
      apply List.map_eq_map_iff.mpr
      intro j _
      simp only [Function.comp_apply]
      rw [List.drop_drop]
      congr 2
      simp only [Nat.succ_eq_add_one]
      ring
    rw [htail, ih]
    exact List.take_append_drop CHUNK_SIZE l
termination_by l.length
decreasing_by
  rw [List.length_drop]
  simp only [CHUNK_SIZE]
  omega

lemma chunkArtists_eq_slice {A : Obj} (hnd : (A.map Prod.fst).Nodup) (i : Nat) :
    chunkArtists A i = (A.drop i).take CHUNK_SIZE := by
  unfold chunkArtists
  apply pyDict_eq_self
  have hsub : List.Sublist ((A.drop i).take CHUNK_SIZE) A :=
    ((A.drop i).take_sublist CHUNK_SIZE).trans (A.drop_sublist i)
  exact hnd.sublist (hsub.map Prod.fst)

lemma metadataOf_eq_filter {data : Obj} (hnd : (data.map Prod.fst).Nodup) :
    metadataOf data = data.filter fun kv => !(kv.1 == "artists") := by
  unfold metadataOf
  apply pyDict_eq_self
  have hsub : List.Sublist (data.filter fun kv => !(kv.1 == "artists")) data :=
    List.filter_sublist data
  exact hnd.sublist (hsub.map Prod.fst)

/-! ### Helper lemmas about the output directory state -/

/-- The content held by the last write of a file name in a write sequence. -/
def lastContent (q : String) : List (String × Obj) → Option Obj
  | [] => none
  | fc :: t =>
    match lastContent q t with
    | some c => some c
    | none => if fc.1 = q then some fc.2 else none

lemma foldl_writeFile_eq :
    ∀ (files : List (String × Obj)) (fs : FS),
      files.foldl (fun g fc => writeFile g fc.1 fc.2) fs =
        fun q => match lastContent q files with
          | some c => some c
          | none => fs q := by
  intro files
  induction files with
  | nil =>
    intro fs
    funext q
    simp [lastContent]
  | cons fc t ih =>
    intro fs
    funext q
    rw [List.foldl_cons, ih]
    simp only [lastContent]
    cases h : lastContent q t with
    | some c => simp
    | none =>
      simp only [writeFile]
      by_cases hq : q = fc.1
      · simp [hq]
      · have : ¬ fc.1 = q := fun hc => hq hc.symm
        simp [hq, this]

/-! ### Claim theorems -/

/-- C1: for every valid input document whose `artists` key maps to a mapping,
concatenating the `artists` entries of all produced chunks in chunk-index
order yields exactly the input's artist entries in their original insertion
order (every key in exactly one chunk, none duplicated or omitted, values
unchanged). -/
theorem split_artists_partition (data A : Obj)
    (hA : lookupKV "artists" data = some (JVal.obj A))
    (hnd : (A.map Prod.fst).Nodup) :
    (((split (some data)).files.map fun fc =>
      getObj (lookupKV "artists" fc.2)).flatten) = A := by
  have hfiles : (split (some data)).files = splitChunks data A := by
    simp [split, hA]
  rw [hfiles, splitChunks_eq, List.map_map]
  have hmap : ((List.range (numChunks A.length)).map
      ((fun fc => getObj (lookupKV "artists" fc.2)) ∘ fun j =>
        (chunkFileName j,
         chunkData (metadataOf data) j A.length (chunkArtists A (j * CHUNK_SIZE))))) =
      (List.range (numChunks A.length)).map
        ((fun i => (A.drop i).take CHUNK_SIZE) ∘ fun j => j * CHUNK_SIZE) := by
    apply List.map_eq_map_iff.mpr
    intro j _
    simp only [Function.comp_apply]
    rw [lookupKV_chunkData_artists]
    simp [getObj, chunkArtists_eq_slice hnd]
  rw [hmap]
  have := join_slices A
  unfold pyRange at this
  rw [List.map_map] at this
  exact this

/-- Sample valid input document used by the witnesses. -/
def sampleDoc : Obj :=
  [("name", JVal.str "musicbrainz"), ("version", JVal.num 2),
   ("artists", JVal.obj [("a", JVal.null), ("b", JVal.num 7)])]

/-- The artist mapping of `sampleDoc`. -/
def sampleArtists : Obj := [("a", JVal.null), ("b", JVal.num 7)]

/-- Witness for C1 at `sampleDoc`. -/
theorem split_artists_partition_witness :
    lookupKV "artists" sampleDoc = some (JVal.obj sampleArtists) ∧
    (sampleArtists.map Prod.fst).Nodup ∧
    (((split (some sampleDoc)).files.map fun fc =>
      getObj (lookupKV "artists" fc.2)).flatten) = sampleArtists :=
  ⟨rfl, by decide, split_artists_partition sampleDoc sampleArtists rfl (by decide)⟩

/-- C2: the `chunk_index` fields of the produced chunks, in production order,
form the contiguous sequence `0, 1, 2, ...`, and the number of chunks equals
`ceil(total_artists / CHUNK_SIZE)` (`numChunks`, the code's
`(total + CHUNK_SIZE - 1) / CHUNK_SIZE`, which is the ceiling division
`A.length ⌈/⌉ CHUNK_SIZE`). -/
theorem split_chunk_indices (data A : Obj)
    (hA : lookupKV "artists" data = some (JVal.obj A)) :
    ((split (some data)).files.map fun fc => lookupKV "chunk_index" fc.2) =
      (List.range (numChunks A.length)).map (fun j => some (JVal.num (Int.ofNat j))) ∧
    (split (some data)).files.length = numChunks A.length ∧
    numChunks A.length = A.length ⌈/⌉ CHUNK_SIZE := by
  have hfiles : (split (some data)).files = splitChunks data A := by
    simp [split, hA]
  refine ⟨?_, ?_, ?_⟩
  · rw [hfiles, splitChunks_eq, List.map_map]
    apply List.map_eq_map_iff.mpr
    intro j _
    exact lookupKV_chunkData_chunk_index _ _ _ _
  · rw [hfiles, splitChunks_eq, List.length_map, List.length_range]
  · rw [Nat.ceilDiv_eq_add_pred_div]
    rfl

/-- Witness for C2 at `sampleDoc`. -/
theorem split_chunk_indices_witness :
    lookupKV "artists" sampleDoc = some (JVal.obj sampleArtists) ∧
    (((split (some sampleDoc)).files.map fun fc => lookupKV "chunk_index" fc.2) =
      (List.range (numChunks sampleArtists.length)).map
        (fun j => some (JVal.num (Int.ofNat j))) ∧
    (split (some sampleDoc)).files.length = numChunks sampleArtists.length ∧
    numChunks sampleArtists.length = sampleArtists.length ⌈/⌉ CHUNK_SIZE) :=
  ⟨rfl, split_chunk_indices sampleDoc sampleArtists rfl⟩

/-- C4: every produced chunk's `total_artist_count` field is the same value,
the input's total artist count, and its `chunk_artist_count` field equals the
actual number of entries in its `artists` field. -/
theorem split_chunk_counts (data A : Obj)
    (hA : lookupKV "artists" data = some (JVal.obj A)) :
    ∀ fc ∈ (split (some data)).files,
      lookupKV "total_artist_count" fc.2 = some (JVal.num A.length) ∧
      lookupKV "chunk_artist_count" fc.2 =
        some (JVal.num (getObj (lookupKV "artists" fc.2)).length) := by
  have hfiles : (split (some data)).files = splitChunks data A := by
    simp [split, hA]
  intro fc hfc
  rw [hfiles, splitChunks_eq] at hfc
  obtain ⟨j, hj, rfl⟩ := List.mem_map.mp hfc
  refine ⟨lookupKV_chunkData_total _ _ _ _, ?_⟩
  rw [lookupKV_chunkData_artists]
  simp only [getObj]
  exact lookupKV_chunkData_chunk_artist_count _ _ _ _

/-- Witness for C4 at `sampleDoc`. -/
theorem split_chunk_counts_witness :
    lookupKV "artists" sampleDoc = some (JVal.obj sampleArtists) ∧
    ∀ fc ∈ (split (some sampleDoc)).files,
      lookupKV "total_artist_count" fc.2 = some (JVal.num sampleArtists.length) ∧
      lookupKV "chunk_artist_count" fc.2 =
        some (JVal.num (getObj (lookupKV "artists" fc.2)).length) :=
  ⟨rfl, split_chunk_counts sampleDoc sampleArtists rfl⟩

/-- C5: when the input file is missing, the process exits with a non-zero
status, the output directory is not created (the existence check precedes
`os.makedirs`), no chunk file is produced, and the output directory state is
untouched. -/
theorem split_missing_input :
    (split none).exitCode ≠ 0 ∧ (split none).dirCreated = false ∧
      (split none).files = [] ∧ ∀ fs : FS, runSplit fs none = fs := by
  refine ⟨by simp [split], rfl, rfl, fun fs => rfl⟩

/-- C9: a valid input with an empty artist mapping produces zero chunk files
(the loop performs no iterations), the output directory is still created, and
the process terminates successfully. -/
theorem split_empty_artists (data : Obj)
    (hA : lookupKV "artists" data = some (JVal.obj [])) :
    split (some data) = ⟨0, true, []⟩ := by
  simp only [split, hA]
  rfl

/-- Witness for C9 at a document with an empty artist mapping. -/
theorem split_empty_artists_witness :
    lookupKV "artists" [("artists", JVal.obj [])] = some (JVal.obj []) ∧
    split (some [("artists", JVal.obj [])]) = ⟨0, true, []⟩ :=
  ⟨rfl, split_empty_artists [("artists", JVal.obj [])] rfl⟩

/-- C10: whenever the loop body executes (i.e. for every `i` produced by
`range(0, len(artist_items), CHUNK_SIZE)`), `total_artists` is strictly
positive, so the division by `total_artists` in the progress computation
never divides by zero. -/
theorem loop_total_artists_pos (data A : Obj)
    (_hA : lookupKV "artists" data = some (JVal.obj A)) :
    ∀ i ∈ pyRange A.length CHUNK_SIZE, 0 < A.length := by
  intro i hi
  unfold pyRange at hi
  obtain ⟨j, hj, _⟩ := List.mem_map.mp hi
  have hjlt := List.mem_range.mp hj
  simp only [CHUNK_SIZE] at hjlt
  omega

/-- Witness for C10 at `sampleDoc`, loop iteration `i = 0`. -/
theorem loop_total_artists_pos_witness :
    lookupKV "artists" sampleDoc = some (JVal.obj sampleArtists) ∧
    0 ∈ pyRange sampleArtists.length CHUNK_SIZE ∧
    0 < sampleArtists.length :=
  ⟨rfl, by decide,
   loop_total_artists_pos sampleDoc sampleArtists rfl 0 (by decide)⟩

/-- C3: the list of chunk sizes (number of entries in each produced chunk's
`artists` field, in chunk order) is `CHUNK_SIZE` for every chunk except the
last, and `total_artists mod CHUNK_SIZE` for the last (or `CHUNK_SIZE` when
evenly divisible). -/
theorem split_chunk_sizes (data A : Obj)
    (hA : lookupKV "artists" data = some (JVal.obj A))
    (hnd : (A.map Prod.fst).Nodup) :
    ((split (some data)).files.map fun fc =>
      (getObj (lookupKV "artists" fc.2)).length) =
    (List.range (numChunks A.length)).map fun j =>
      if j + 1 < numChunks A.length then CHUNK_SIZE
      else if A.length % CHUNK_SIZE = 0 then CHUNK_SIZE
      else A.length % CHUNK_SIZE := by
  have hfiles : (split (some data)).files = splitChunks data A := by
    simp [split, hA]
  rw [hfiles, splitChunks_eq, List.map_map]
  apply List.map_eq_map_iff.mpr
  intro j hj
  have hjlt : j < numChunks A.length := List.mem_range.mp hj
  simp only [Function.comp_apply]
  rw [lookupKV_chunkData_artists]
  simp only [getObj]
  rw [chunkArtists_eq_slice hnd]
  rw [List.length_take, List.length_drop]
  unfold numChunks CHUNK_SIZE at hjlt ⊢
  split_ifs with h1 h2 <;> omega

/-- Witness for C3 at `sampleDoc` (one chunk of 2 artists). -/
theorem split_chunk_sizes_witness :
    lookupKV "artists" sampleDoc = some (JVal.obj sampleArtists) ∧
    (sampleArtists.map Prod.fst).Nodup ∧
    ((split (some sampleDoc)).files.map fun fc =>
      (getObj (lookupKV "artists" fc.2)).length) =
    (List.range (numChunks sampleArtists.length)).map fun j =>
      if j + 1 < numChunks sampleArtists.length then CHUNK_SIZE
      else if sampleArtists.length % CHUNK_SIZE = 0 then CHUNK_SIZE
      else sampleArtists.length % CHUNK_SIZE :=
  ⟨rfl, by decide, split_chunk_sizes sampleDoc sampleArtists rfl (by decide)⟩

lemma chunkData_eq_append (md : Obj) (idx total : Nat) (ca : Obj)
    (hnd : (md.map Prod.fst).Nodup)
    (hres : ∀ k ∈ md.map Prod.fst,
      k ≠ "chunk_index" ∧ k ≠ "chunk_artist_count" ∧
      k ≠ "total_artist_count" ∧ k ≠ "artists") :
    chunkData md idx total ca = md ++
      [("chunk_index", JVal.num idx),
       ("chunk_artist_count", JVal.num ca.length),
       ("total_artist_count", JVal.num total),
       ("artists", JVal.obj ca)] := by
  unfold chunkData
  apply pyDict_eq_self
  rw [List.map_append, List.nodup_append]
  refine ⟨hnd, ?_, ?_⟩
  · simp only [List.map_cons, List.map_nil]
    decide
  intro k hk1 hk2
  obtain ⟨n1, n2, n3, n4⟩ := hres k hk1
  simp only [List.map_cons, List.map_nil, List.mem_cons, List.not_mem_nil,
    or_false] at hk2
  rcases hk2 with h | h | h | h
  · exact n1 h
  · exact n2 h
  · exact n3 h
  · exact n4 h

/-- C6 as stated is false: a metadata key named like one of the four added
fields is overwritten.  At `clashDoc`, whose metadata key `chunk_index` holds
the string `"hello"`, the produced chunk's `chunk_index` entry holds the
number `0` instead. -/
def clashDoc : Obj :=
  [("chunk_index", JVal.str "hello"), ("artists", JVal.obj [("a", JVal.null)])]

/-- Counterexample to C6 as stated: it is not the case that every top-level
metadata key of `clashDoc` appears in the produced chunk with its value
unchanged. -/
theorem split_metadata_frame_cex :
    ¬ (∀ fc ∈ (split (some clashDoc)).files, ∀ k v, (k, v) ∈ clashDoc →
        k ≠ "artists" → lookupKV k fc.2 = some v) := by
  intro h
  have hfe : (split (some clashDoc)).files =
      [(chunkFileName 0,
        chunkData (metadataOf clashDoc) 0 1 (chunkArtists [("a", JVal.null)] 0))] := rfl
  have hmem : (chunkFileName 0,
      chunkData (metadataOf clashDoc) 0 1 (chunkArtists [("a", JVal.null)] 0)) ∈
      (split (some clashDoc)).files := by
    rw [hfe]
    exact List.mem_singleton_self _
  have h1 := h _ hmem "chunk_index" (JVal.str "hello")
    (List.mem_cons_self _ _) (by decide)
  have h2 : lookupKV "chunk_index"
      (chunkData (metadataOf clashDoc) 0 1 (chunkArtists [("a", JVal.null)] 0)) =
      some (JVal.num 0) := rfl
  have h3 := h2.symm.trans h1
  simp at h3

/-- C6 amended: for a valid input whose metadata keys avoid the three counter
names (the `artists` key is excluded from the metadata by construction),
every produced chunk consists of the metadata entries verbatim, in order and
with unchanged values, followed by exactly the four added fields
`chunk_index`, `chunk_artist_count`, `total_artist_count` and `artists`;
metadata keys that collide with an added field are instead overwritten by it,
which is what the counterexample exhibits. -/
theorem split_metadata_frame (data A : Obj)
    (hd : (data.map Prod.fst).Nodup)
    (hA : lookupKV "artists" data = some (JVal.obj A))
    (hres : ∀ k ∈ (metadataOf data).map Prod.fst,
      k ≠ "chunk_index" ∧ k ≠ "chunk_artist_count" ∧ k ≠ "total_artist_count") :
    metadataOf data = (data.filter fun kv => !(kv.1 == "artists")) ∧
    ∀ fc ∈ (split (some data)).files, ∃ idx : Nat, ∃ ca : Obj,
      fc.2 = metadataOf data ++
        [("chunk_index", JVal.num idx),
         ("chunk_artist_count", JVal.num ca.length),
         ("total_artist_count", JVal.num A.length),
         ("artists", JVal.obj ca)] := by
  have hmd : metadataOf data = (data.filter fun kv => !(kv.1 == "artists")) :=
    metadataOf_eq_filter hd
  have hmdnd : ((metadataOf data).map Prod.fst).Nodup := by
    rw [hmd]
    exact hd.sublist ((List.filter_sublist data).map Prod.fst)
  have hart : ∀ k ∈ (metadataOf data).map Prod.fst, k ≠ "artists" := by
    rw [hmd]
    intro k hk
    obtain ⟨kv, hkv, rfl⟩ := List.mem_map.mp hk
    have hf := List.of_mem_filter hkv
    simpa using hf
  refine ⟨hmd, ?_⟩
  have hfiles : (split (some data)).files = splitChunks data A := by
    simp [split, hA]
  intro fc hfc
  rw [hfiles, splitChunks_eq] at hfc
  obtain ⟨j, hj, rfl⟩ := List.mem_map.mp hfc
  refine ⟨j, chunkArtists A (j * CHUNK_SIZE), ?_⟩
  exact chunkData_eq_append _ _ _ _ hmdnd fun k hk =>
    ⟨(hres k hk).1, (hres k hk).2.1, (hres k hk).2.2, hart k hk⟩

/-- Witness for the amended C6 at `sampleDoc`. -/
theorem split_metadata_frame_witness :
    (sampleDoc.map Prod.fst).Nodup ∧
    lookupKV "artists" sampleDoc = some (JVal.obj sampleArtists) ∧
    (∀ k ∈ (metadataOf sampleDoc).map Prod.fst,
      k ≠ "chunk_index" ∧ k ≠ "chunk_artist_count" ∧ k ≠ "total_artist_count") ∧
    (metadataOf sampleDoc = (sampleDoc.filter fun kv => !(kv.1 == "artists")) ∧
    ∀ fc ∈ (split (some sampleDoc)).files, ∃ idx : Nat, ∃ ca : Obj,
      fc.2 = metadataOf sampleDoc ++
        [("chunk_index", JVal.num idx),
         ("chunk_artist_count", JVal.num ca.length),
         ("total_artist_count", JVal.num sampleArtists.length),
         ("artists", JVal.obj ca)]) :=
  ⟨by decide, rfl, by decide,
   split_metadata_frame sampleDoc sampleArtists (by decide) rfl (by decide)⟩

/-- Counterexample to C7 as stated: at chunk index 100 the file name is
`chunk-100.json`; no two-character `<NN>` satisfies
`chunk-<NN>.json = chunk-100.json`, so the index is not rendered as a
zero-padded two-digit number for every index however large. -/
theorem chunkFileName_two_digit_cex :
    ¬ ∃ nn : String, chunkFileName 100 = "chunk-" ++ nn ++ ".json" ∧
      nn.length = 2 := by
  rintro ⟨nn, h1, h2⟩
  have hlen := congrArg String.length h1
  rw [String.length_append, String.length_append, h2] at hlen
  revert hlen
  decide

/-- C7 amended: every produced chunk is written to a file named
`chunk-<NN>.json` where `<NN>` is the chunk's `chunk_index` rendered in
decimal, left-padded with zeros to a minimum width of two; for indices below
100 (the only correction the counterexample forces) this is exactly a
zero-padded two-digit number starting at `00`. -/
theorem split_file_names (data A : Obj)
    (hA : lookupKV "artists" data = some (JVal.obj A)) :
    ∀ fc ∈ (split (some data)).files, ∃ idx : Nat,
      lookupKV "chunk_index" fc.2 = some (JVal.num (Int.ofNat idx)) ∧
      fc.1 = "chunk-" ++ format02d idx ++ ".json" ∧
      (idx < 100 → (format02d idx).length = 2) := by
  have hfiles : (split (some data)).files = splitChunks data A := by
    simp [split, hA]
  intro fc hfc
  rw [hfiles, splitChunks_eq] at hfc
  obtain ⟨j, hj, rfl⟩ := List.mem_map.mp hfc
  refine ⟨j, lookupKV_chunkData_chunk_index _ _ _ _, rfl, ?_⟩
  have H : ∀ i, i < 100 → (format02d i).length = 2 := by decide
  exact H j

/-- Witness for the amended C7 at `sampleDoc`. -/
theorem split_file_names_witness :
    lookupKV "artists" sampleDoc = some (JVal.obj sampleArtists) ∧
    ∀ fc ∈ (split (some sampleDoc)).files, ∃ idx : Nat,
      lookupKV "chunk_index" fc.2 = some (JVal.num (Int.ofNat idx)) ∧
      fc.1 = "chunk-" ++ format02d idx ++ ".json" ∧
      (idx < 100 → (format02d idx).length = 2) :=
  ⟨rfl, split_file_names sampleDoc sampleArtists rfl⟩

/-- C8: the split is deterministic and idempotent at the level of the output
directory: running it a second time on the same unchanged input rewrites
every chunk file with identical content (`json.dump` is a deterministic
function of the written object), leaving the directory state exactly as
after the first run. -/
theorem runSplit_idempotent (fs : FS) (input : Option Obj) :
    runSplit (runSplit fs input) input = runSplit fs input := by
  unfold runSplit
  rw [foldl_writeFile_eq, foldl_writeFile_eq]
  funext q
  cases h : lastContent q (split input).files with
  | some c => simp [h]
  | none => simp [h]
